import Mathlib

/-!
Shallow embedding of the SAGAlyze fairness/bias-audit engine
(confusion-matrix builder, Brier-score calculator, per-group fairness
aggregator, disparity aggregator) and verification of its specification.

Numbers are modelled as rationals (`ℚ`); counters as naturals. Nullable
string columns (`groundTruthLabel`, `fitzpatrickType`) are `Option String`;
JavaScript truthiness makes the empty string behave like a missing value,
which the embedding reproduces explicitly.
-/

namespace SAGAlyze

structure Analysis where
  classification : String
  confidence : ℚ
  groundTruthLabel : Option String
deriving DecidableEq

structure Patient where
  fitzpatrickType : Option String
deriving DecidableEq

structure AnalysisWithPatient where
  analysis : Analysis
  patient : Patient
deriving DecidableEq

structure Prediction where
  classification : String
  groundTruth : String
  confidence : ℚ
deriving DecidableEq

structure ConfusionMatrix where
  truePositives : Nat
  falsePositives : Nat
  trueNegatives : Nat
  falseNegatives : Nat
deriving DecidableEq

structure FairnessMetrics where
  fitzpatrickType : String
  totalPredictions : Nat
  positivePredictions : Nat
  truePositives : Nat
  falsePositives : Nat
  trueNegatives : Nat
  falseNegatives : Nat
  positiveRate : ℚ
  truePositiveRate : ℚ
  falsePositiveRate : ℚ
  precision : ℚ
  «recall» : ℚ
  f1Score : ℚ
  brierScore : ℚ
  averageConfidence : ℚ
  accuracyAtConfidence : ℚ
deriving DecidableEq

structure DisparityMetrics where
  overallDisparityScore : ℚ
  demographicParityGap : ℚ
  equalOpportunityGap : ℚ
  calibrationGap : ℚ
  parityAlert : Bool
  opportunityAlert : Bool
  calibrationAlert : Bool
deriving DecidableEq

def POSITIVE_CLASSIFICATIONS : List String := ["Malignant", "Infection"]

def PARITY_THRESHOLD : ℚ := 15 / 100

def OPPORTUNITY_THRESHOLD : ℚ := 15 / 100

def CALIBRATION_THRESHOLD : ℚ := 10 / 100

def isPositivePrediction (classification : String) : Bool :=
  POSITIVE_CLASSIFICATIONS.contains classification

def isPositiveGroundTruth (groundTruth : String) : Bool :=
  POSITIVE_CLASSIFICATIONS.contains groundTruth

/-- One iteration of the accumulation loop of `calculateConfusionMatrix`. -/
def cmStep (c : ConfusionMatrix) (p : Prediction) : ConfusionMatrix :=
  let predictedPositive := isPositivePrediction p.classification
  let actualPositive := isPositiveGroundTruth p.groundTruth
  if predictedPositive && actualPositive then
    { c with truePositives := c.truePositives + 1 }
  else if predictedPositive && !actualPositive then
    { c with falsePositives := c.falsePositives + 1 }
  else if !predictedPositive && !actualPositive then
    { c with trueNegatives := c.trueNegatives + 1 }
  else if !predictedPositive && actualPositive then
    { c with falseNegatives := c.falseNegatives + 1 }
  else c

def calculateConfusionMatrix (predictions : List Prediction) : ConfusionMatrix :=
  predictions.foldl cmStep ⟨0, 0, 0, 0⟩

/-- The squared error accumulated for one record in `calculateBrierScore`. -/
def brierTerm (p : Prediction) : ℚ :=
  (p.confidence / 100 - (if p.classification = p.groundTruth then 1 else 0)) ^ 2

def calculateBrierScore (predictions : List Prediction) : ℚ :=
  if predictions.length = 0 then 0
  else (predictions.foldl (fun acc p => acc + brierTerm p) 0) / predictions.length

/-- JavaScript truthiness of `item.analysis.groundTruthLabel`: a record
participates only when the label is present and non-empty. -/
def hasGroundTruth (item : AnalysisWithPatient) : Bool :=
  match item.analysis.groundTruthLabel with
  | none => false
  | some s => !(s == "")

/-- The grouping key `item.patient.fitzpatrickType || "Unknown"`:
a missing (or, by JS truthiness, empty) value falls back to "Unknown". -/
def groupKeyOf (item : AnalysisWithPatient) : String :=
  match item.patient.fitzpatrickType with
  | none => "Unknown"
  | some s => if s == "" then "Unknown" else s

/-- First-occurrence key order of the insertion-ordered `Map` used for
grouping: keys already seen are skipped. -/
def dedupKeys : List String → List String → List String
  | [], _ => []
  | k :: ks, seen =>
    if k ∈ seen then dedupKeys ks seen else k :: dedupKeys ks (k :: seen)

/-- The projection `items.map(item => ({classification, groundTruth, confidence}))`
with the non-null assertion `groundTruthLabel!` rendered as `getD ""`. -/
def toPrediction (item : AnalysisWithPatient) : Prediction :=
  { classification := item.analysis.classification
    groundTruth := item.analysis.groundTruthLabel.getD ""
    confidence := item.analysis.confidence }

/-- Body of the per-group loop of `calculateFairnessMetricsPerGroup`
(lines 111-170 of the source). -/
def computeGroupMetrics (fitzpatrickType : String)
    (items : List AnalysisWithPatient) : FairnessMetrics :=
  let predictions := items.map toPrediction
  let cm := calculateConfusionMatrix predictions
  let truePositives := cm.truePositives
  let falsePositives := cm.falsePositives
  let trueNegatives := cm.trueNegatives
  let falseNegatives := cm.falseNegatives
  let totalPredictions := items.length
  let positivePredictions :=
    (items.filter (fun item => isPositivePrediction item.analysis.classification)).length
  let positiveRate : ℚ :=
    if totalPredictions > 0 then (positivePredictions : ℚ) / totalPredictions else 0
  let truePositiveRate : ℚ :=
    if truePositives + falseNegatives > 0 then
      (truePositives : ℚ) / ((truePositives : ℚ) + (falseNegatives : ℚ))
    else 0
  let falsePositiveRate : ℚ :=
    if falsePositives + trueNegatives > 0 then
      (falsePositives : ℚ) / ((falsePositives : ℚ) + (trueNegatives : ℚ))
    else 0
  let precision : ℚ :=
    if truePositives + falsePositives > 0 then
      (truePositives : ℚ) / ((truePositives : ℚ) + (falsePositives : ℚ))
    else 0
  let «recall» := truePositiveRate
  let f1Score : ℚ :=
    if precision + «recall» > 0 then (2 * precision * «recall») / (precision + «recall») else 0
  let brierScore := calculateBrierScore predictions
  let averageConfidence : ℚ :=
    (predictions.foldl (fun sum p => sum + p.confidence) 0) / predictions.length
  let correctPredictions :=
    (items.filter (fun item =>
      item.analysis.groundTruthLabel == some item.analysis.classification)).length
  let accuracyAtConfidence : ℚ :=
    if totalPredictions > 0 then (correctPredictions : ℚ) / totalPredictions else 0
  { fitzpatrickType := fitzpatrickType
    totalPredictions := totalPredictions
    positivePredictions := positivePredictions
    truePositives := truePositives
    falsePositives := falsePositives
    trueNegatives := trueNegatives
    falseNegatives := falseNegatives
    positiveRate := positiveRate
    truePositiveRate := truePositiveRate
    falsePositiveRate := falsePositiveRate
    precision := precision
    «recall» := «recall»
    f1Score := f1Score
    brierScore := brierScore
    averageConfidence := averageConfidence
    accuracyAtConfidence := accuracyAtConfidence }

def calculateFairnessMetricsPerGroup
    (analysesWithPatients : List AnalysisWithPatient) : List FairnessMetrics :=
  let qualifying := analysesWithPatients.filter hasGroundTruth
  let keys := dedupKeys (qualifying.map groupKeyOf) []
  keys.map (fun k =>
    computeGroupMetrics k (qualifying.filter (fun a => groupKeyOf a == k)))

/-- `Math.max(...xs)` over the non-empty list `x :: xs`. -/
def listMax (x : ℚ) (xs : List ℚ) : ℚ := xs.foldl max x

/-- `Math.min(...xs)` over the non-empty list `x :: xs`. -/
def listMin (x : ℚ) (xs : List ℚ) : ℚ := xs.foldl min x

def calculateDisparityMetrics (metrics : List FairnessMetrics) : DisparityMetrics :=
  match metrics with
  | [] =>
    { overallDisparityScore := 0
      demographicParityGap := 0
      equalOpportunityGap := 0
      calibrationGap := 0
      parityAlert := false
      opportunityAlert := false
      calibrationAlert := false }
  | m :: ms =>
    let demographicParityGap :=
      listMax m.positiveRate (ms.map (fun g => g.positiveRate)) -
        listMin m.positiveRate (ms.map (fun g => g.positiveRate))
    let equalOpportunityGap :=
      listMax m.truePositiveRate (ms.map (fun g => g.truePositiveRate)) -
        listMin m.truePositiveRate (ms.map (fun g => g.truePositiveRate))
    let calibrationGap :=
      listMax m.brierScore (ms.map (fun g => g.brierScore)) -
        listMin m.brierScore (ms.map (fun g => g.brierScore))
    let overallDisparityScore :=
      (demographicParityGap + equalOpportunityGap + calibrationGap) / 3
    { overallDisparityScore := overallDisparityScore
      demographicParityGap := demographicParityGap
      equalOpportunityGap := equalOpportunityGap
      calibrationGap := calibrationGap
      parityAlert := decide (demographicParityGap > PARITY_THRESHOLD)
      opportunityAlert := decide (equalOpportunityGap > OPPORTUNITY_THRESHOLD)
      calibrationAlert := decide (calibrationGap > CALIBRATION_THRESHOLD) }

/-! Helper lemmas about the non-empty fold maximum and minimum. -/

theorem self_le_listMax (x : ℚ) (xs : List ℚ) : x ≤ listMax x xs := by
  induction xs generalizing x with
  | nil => exact le_refl x
  | cons y ys ih => exact le_trans (le_max_left x y) (ih (max x y))

theorem mem_le_listMax (x y : ℚ) (xs : List ℚ) (h : y ∈ xs) : y ≤ listMax x xs := by
  induction xs generalizing x with
  | nil => cases h
  | cons a as ih =>
    rcases List.mem_cons.mp h with h1 | h2
    · subst h1
      exact le_trans (le_max_right x y) (self_le_listMax (max x y) as)
    · exact ih (max x a) h2

theorem listMax_mem (x : ℚ) (xs : List ℚ) : listMax x xs ∈ x :: xs := by
  induction xs generalizing x with
  | nil => exact List.mem_singleton.mpr rfl
  | cons a as ih =>
    have h := ih (max x a)
    rcases List.mem_cons.mp h with h1 | h2
    · rcases max_choice x a with hx | ha
      · exact List.mem_cons.mpr (Or.inl (h1.trans hx))
      · exact List.mem_cons.mpr (Or.inr (List.mem_cons.mpr (Or.inl (h1.trans ha))))
    · exact List.mem_cons.mpr (Or.inr (List.mem_cons.mpr (Or.inr h2)))

theorem listMin_le_self (x : ℚ) (xs : List ℚ) : listMin x xs ≤ x := by
  induction xs generalizing x with
  | nil => exact le_refl x
  | cons y ys ih => exact le_trans (ih (min x y)) (min_le_left x y)

theorem listMin_le_mem (x y : ℚ) (xs : List ℚ) (h : y ∈ xs) : listMin x xs ≤ y := by
  induction xs generalizing x with
  | nil => cases h
  | cons a as ih =>
    rcases List.mem_cons.mp h with h1 | h2
    · subst h1
      exact le_trans (listMin_le_self (min x y) as) (min_le_right x y)
    · exact ih (min x a) h2

theorem listMin_mem (x : ℚ) (xs : List ℚ) : listMin x xs ∈ x :: xs := by
  induction xs generalizing x with
  | nil => exact List.mem_singleton.mpr rfl
  | cons a as ih =>
    have h := ih (min x a)
    rcases List.mem_cons.mp h with h1 | h2
    · rcases min_choice x a with hx | ha
      · exact List.mem_cons.mpr (Or.inl (h1.trans hx))
      · exact List.mem_cons.mpr (Or.inr (List.mem_cons.mpr (Or.inl (h1.trans ha))))
    · exact List.mem_cons.mpr (Or.inr (List.mem_cons.mpr (Or.inr h2)))

/-- Claim C7: on the empty metrics list, `calculateDisparityMetrics` returns a
summary whose four numeric fields are 0 and whose three alert flags are false. -/
theorem disparity_empty_summary :
    (calculateDisparityMetrics []).demographicParityGap = 0 ∧
    (calculateDisparityMetrics []).equalOpportunityGap = 0 ∧
    (calculateDisparityMetrics []).calibrationGap = 0 ∧
    (calculateDisparityMetrics []).overallDisparityScore = 0 ∧
    (calculateDisparityMetrics []).parityAlert = false ∧
    (calculateDisparityMetrics []).opportunityAlert = false ∧
    (calculateDisparityMetrics []).calibrationAlert = false := by
  refine ⟨rfl, rfl, rfl, rfl, rfl, rfl, rfl⟩

/-- Claim C2: for every metrics list, each alert is true exactly when its gap
strictly exceeds its threshold (0.15, 0.15, 0.10 respectively); in particular a
gap exactly at the threshold leaves the alert false. -/
theorem disparity_alert_thresholds (metrics : List FairnessMetrics) :
    ((calculateDisparityMetrics metrics).parityAlert = true ↔
      (calculateDisparityMetrics metrics).demographicParityGap > 15 / 100) ∧
    ((calculateDisparityMetrics metrics).opportunityAlert = true ↔
      (calculateDisparityMetrics metrics).equalOpportunityGap > 15 / 100) ∧
    ((calculateDisparityMetrics metrics).calibrationAlert = true ↔
      (calculateDisparityMetrics metrics).calibrationGap > 10 / 100) := by
  cases metrics with
  | nil =>
    refine ⟨?_, ?_, ?_⟩ <;>
      simp only [calculateDisparityMetrics] <;>
      norm_num
  | cons m ms =>
    refine ⟨?_, ?_, ?_⟩ <;>
      simp only [calculateDisparityMetrics, PARITY_THRESHOLD, OPPORTUNITY_THRESHOLD,
        CALIBRATION_THRESHOLD, decide_eq_true_eq]

/-! Projections of `calculateDisparityMetrics` on a non-empty list. -/

theorem disparity_cons_parityGap (m : FairnessMetrics) (ms : List FairnessMetrics) :
    (calculateDisparityMetrics (m :: ms)).demographicParityGap =
      listMax m.positiveRate (ms.map (fun g => g.positiveRate)) -
        listMin m.positiveRate (ms.map (fun g => g.positiveRate)) := rfl

theorem disparity_cons_opportunityGap (m : FairnessMetrics) (ms : List FairnessMetrics) :
    (calculateDisparityMetrics (m :: ms)).equalOpportunityGap =
      listMax m.truePositiveRate (ms.map (fun g => g.truePositiveRate)) -
        listMin m.truePositiveRate (ms.map (fun g => g.truePositiveRate)) := rfl

theorem disparity_cons_calibrationGap (m : FairnessMetrics) (ms : List FairnessMetrics) :
    (calculateDisparityMetrics (m :: ms)).calibrationGap =
      listMax m.brierScore (ms.map (fun g => g.brierScore)) -
        listMin m.brierScore (ms.map (fun g => g.brierScore)) := rfl

/-- The value `listMax x xs - listMin x xs` is a difference of an upper bound
and a lower bound, both attained in `x :: xs`. -/
theorem maxmin_char (x : ℚ) (xs : List ℚ) :
    ∃ a ∈ x :: xs, ∃ b ∈ x :: xs,
      (∀ y ∈ x :: xs, y ≤ a) ∧ (∀ y ∈ x :: xs, b ≤ y) ∧
      listMax x xs - listMin x xs = a - b := by
  refine ⟨listMax x xs, listMax_mem x xs, listMin x xs, listMin_mem x xs, ?_, ?_, rfl⟩
  · intro y hy
    rcases List.mem_cons.mp hy with h1 | h2
    · exact h1 ▸ self_le_listMax x xs
    · exact mem_le_listMax x y xs h2
  · intro y hy
    rcases List.mem_cons.mp hy with h1 | h2
    · exact h1 ▸ listMin_le_self x xs
    · exact listMin_le_mem x y xs h2

/-- Claim C3: on a non-empty metrics list the three gaps are max minus min of
the groups' `positiveRate`, `truePositiveRate` and `brierScore` values (each
stated as the difference of an attained upper and lower bound), the overall
score is the unweighted mean of the three gaps, and on a one-element list all
gaps and the score are 0 and all alerts are false. -/
theorem disparity_gaps_max_sub_min (m : FairnessMetrics) (ms : List FairnessMetrics) :
    (∃ a ∈ (m :: ms).map (fun g => g.positiveRate),
      ∃ b ∈ (m :: ms).map (fun g => g.positiveRate),
        (∀ y ∈ (m :: ms).map (fun g => g.positiveRate), y ≤ a) ∧
        (∀ y ∈ (m :: ms).map (fun g => g.positiveRate), b ≤ y) ∧
        (calculateDisparityMetrics (m :: ms)).demographicParityGap = a - b) ∧
    (∃ a ∈ (m :: ms).map (fun g => g.truePositiveRate),
      ∃ b ∈ (m :: ms).map (fun g => g.truePositiveRate),
        (∀ y ∈ (m :: ms).map (fun g => g.truePositiveRate), y ≤ a) ∧
        (∀ y ∈ (m :: ms).map (fun g => g.truePositiveRate), b ≤ y) ∧
        (calculateDisparityMetrics (m :: ms)).equalOpportunityGap = a - b) ∧
    (∃ a ∈ (m :: ms).map (fun g => g.brierScore),
      ∃ b ∈ (m :: ms).map (fun g => g.brierScore),
        (∀ y ∈ (m :: ms).map (fun g => g.brierScore), y ≤ a) ∧
        (∀ y ∈ (m :: ms).map (fun g => g.brierScore), b ≤ y) ∧
        (calculateDisparityMetrics (m :: ms)).calibrationGap = a - b) ∧
    (calculateDisparityMetrics (m :: ms)).overallDisparityScore =
      ((calculateDisparityMetrics (m :: ms)).demographicParityGap +
        (calculateDisparityMetrics (m :: ms)).equalOpportunityGap +
        (calculateDisparityMetrics (m :: ms)).calibrationGap) / 3 ∧
    (calculateDisparityMetrics [m]).demographicParityGap = 0 ∧
    (calculateDisparityMetrics [m]).equalOpportunityGap = 0 ∧
    (calculateDisparityMetrics [m]).calibrationGap = 0 ∧
    (calculateDisparityMetrics [m]).overallDisparityScore = 0 ∧
    (calculateDisparityMetrics [m]).parityAlert = false ∧
    (calculateDisparityMetrics [m]).opportunityAlert = false ∧
    (calculateDisparityMetrics [m]).calibrationAlert = false := by
  refine ⟨?_, ?_, ?_, rfl, ?_, ?_, ?_, ?_, ?_, ?_, ?_⟩
  · rw [List.map_cons, disparity_cons_parityGap]
    exact maxmin_char m.positiveRate (ms.map (fun g => g.positiveRate))
  · rw [List.map_cons, disparity_cons_opportunityGap]
    exact maxmin_char m.truePositiveRate (ms.map (fun g => g.truePositiveRate))
  · rw [List.map_cons, disparity_cons_calibrationGap]
    exact maxmin_char m.brierScore (ms.map (fun g => g.brierScore))
  all_goals
    norm_num [calculateDisparityMetrics, listMax, listMin, PARITY_THRESHOLD,
      OPPORTUNITY_THRESHOLD, CALIBRATION_THRESHOLD]

/-- Two-group metrics record with a prescribed positive rate, all other
numeric fields zero. -/
def mkMetrics (r : ℚ) : FairnessMetrics :=
  { fitzpatrickType := "G"
    totalPredictions := 1
    positivePredictions := 0
    truePositives := 0
    falsePositives := 0
    trueNegatives := 0
    falseNegatives := 0
    positiveRate := r
    truePositiveRate := 0
    falsePositiveRate := 0
    precision := 0
    «recall» := 0
    f1Score := 0
    brierScore := 0
    averageConfidence := 0
    accuracyAtConfidence := 0 }

/-- Claim C1, counterexample: with the other group fixed at positive rate 1/2,
raising the first group's positive rate from 1/10 to 3/10 strictly decreases
`demographicParityGap` (from 2/5 to 1/5), so the claimed monotonicity fails. -/
theorem parityGap_monotone_counterexample :
    (calculateDisparityMetrics [mkMetrics (3 / 10), mkMetrics (1 / 2)]).demographicParityGap <
      (calculateDisparityMetrics [mkMetrics (1 / 10), mkMetrics (1 / 2)]).demographicParityGap := by
  have e1 : (calculateDisparityMetrics
      [mkMetrics (3 / 10), mkMetrics (1 / 2)]).demographicParityGap =
      max (3 / 10 : ℚ) (1 / 2) - min (3 / 10 : ℚ) (1 / 2) := rfl
  have e2 : (calculateDisparityMetrics
      [mkMetrics (1 / 10), mkMetrics (1 / 2)]).demographicParityGap =
      max (1 / 10 : ℚ) (1 / 2) - min (1 / 10 : ℚ) (1 / 2) := rfl
  rw [e1, e2, max_eq_right (by norm_num : (3 / 10 : ℚ) ≤ 1 / 2),
    min_eq_left (by norm_num : (3 / 10 : ℚ) ≤ 1 / 2),
    max_eq_right (by norm_num : (1 / 10 : ℚ) ≤ 1 / 2),
    min_eq_left (by norm_num : (1 / 10 : ℚ) ≤ 1 / 2)]
  norm_num

/-- Claim C1, amended: for a two-group input, increasing the positive rate of a
group whose rate is already at least the other group's never decreases
`demographicParityGap`. -/
theorem parityGap_monotone_of_ge (m1 m2 : FairnessMetrics) (r' : ℚ)
    (h1 : m2.positiveRate ≤ m1.positiveRate) (h2 : m1.positiveRate ≤ r') :
    (calculateDisparityMetrics [m1, m2]).demographicParityGap ≤
      (calculateDisparityMetrics
        [{ m1 with positiveRate := r' }, m2]).demographicParityGap := by
  have e1 : (calculateDisparityMetrics [m1, m2]).demographicParityGap =
      max m1.positiveRate m2.positiveRate - min m1.positiveRate m2.positiveRate := rfl
  have e2 : (calculateDisparityMetrics
      [{ m1 with positiveRate := r' }, m2]).demographicParityGap =
      max r' m2.positiveRate - min r' m2.positiveRate := rfl
  have h3 : m2.positiveRate ≤ r' := le_trans h1 h2
  rw [e1, e2, max_comm m1.positiveRate m2.positiveRate, max_eq_right h1,
    min_eq_right h1, max_comm r' m2.positiveRate, max_eq_right h3, min_eq_right h3]
  exact sub_le_sub_right h2 m2.positiveRate

/-- Witness for the amended claim C1 at rates 1/10 (fixed), 1/2 raised to 7/10. -/
theorem parityGap_monotone_of_ge_witness :
    (calculateDisparityMetrics [mkMetrics (1 / 2), mkMetrics (1 / 10)]).demographicParityGap ≤
      (calculateDisparityMetrics
        [{ mkMetrics (1 / 2) with positiveRate := 7 / 10 },
          mkMetrics (1 / 10)]).demographicParityGap :=
  parityGap_monotone_of_ge (mkMetrics (1 / 2)) (mkMetrics (1 / 10)) (7 / 10)
    (by norm_num [mkMetrics]) (by norm_num [mkMetrics])

/-! The confusion-matrix fold counts each truth-table bucket. -/

theorem foldl_cmStep (preds : List Prediction) (c : ConfusionMatrix) :
    preds.foldl cmStep c =
      { truePositives := c.truePositives + preds.countP (fun p =>
          isPositivePrediction p.classification && isPositiveGroundTruth p.groundTruth)
        falsePositives := c.falsePositives + preds.countP (fun p =>
          isPositivePrediction p.classification && !isPositiveGroundTruth p.groundTruth)
        trueNegatives := c.trueNegatives + preds.countP (fun p =>
          !isPositivePrediction p.classification && !isPositiveGroundTruth p.groundTruth)
        falseNegatives := c.falseNegatives + preds.countP (fun p =>
          !isPositivePrediction p.classification && isPositiveGroundTruth p.groundTruth) } := by
  induction preds generalizing c with
  | nil => simp
  | cons p ps ih =>
    rw [List.foldl_cons, ih]
    cases hp : isPositivePrediction p.classification <;>
      cases ha : isPositiveGroundTruth p.groundTruth <;>
        simp [cmStep, hp, ha, List.countP_cons, ConfusionMatrix.mk.injEq] <;>
          omega

/-- The four truth-table predicates partition any prediction list. -/
theorem countP_truth_table (preds : List Prediction) :
    preds.countP (fun p =>
        isPositivePrediction p.classification && isPositiveGroundTruth p.groundTruth) +
      preds.countP (fun p =>
        isPositivePrediction p.classification && !isPositiveGroundTruth p.groundTruth) +
      preds.countP (fun p =>
        !isPositivePrediction p.classification && !isPositiveGroundTruth p.groundTruth) +
      preds.countP (fun p =>
        !isPositivePrediction p.classification && isPositiveGroundTruth p.groundTruth) =
      preds.length := by
  induction preds with
  | nil => rfl
  | cons p ps ih =>
    cases hp : isPositivePrediction p.classification <;>
      cases ha : isPositiveGroundTruth p.groundTruth <;>
        simp [List.countP_cons, hp, ha] <;> omega

/-- Claim C4: `calculateConfusionMatrix` counts each record in exactly one of
tp, fp, tn, fn according to the 2x2 truth table over positive-set membership,
so tp + fp + tn + fn equals the number of records, and the empty list yields
all four counts zero. -/
theorem confusionMatrix_partition (predictions : List Prediction) :
    (calculateConfusionMatrix predictions).truePositives = predictions.countP (fun p =>
      isPositivePrediction p.classification && isPositiveGroundTruth p.groundTruth) ∧
    (calculateConfusionMatrix predictions).falsePositives = predictions.countP (fun p =>
      isPositivePrediction p.classification && !isPositiveGroundTruth p.groundTruth) ∧
    (calculateConfusionMatrix predictions).trueNegatives = predictions.countP (fun p =>
      !isPositivePrediction p.classification && !isPositiveGroundTruth p.groundTruth) ∧
    (calculateConfusionMatrix predictions).falseNegatives = predictions.countP (fun p =>
      !isPositivePrediction p.classification && isPositiveGroundTruth p.groundTruth) ∧
    (calculateConfusionMatrix predictions).truePositives +
      (calculateConfusionMatrix predictions).falsePositives +
      (calculateConfusionMatrix predictions).trueNegatives +
      (calculateConfusionMatrix predictions).falseNegatives = predictions.length ∧
    calculateConfusionMatrix [] = ⟨0, 0, 0, 0⟩ := by
  have h := foldl_cmStep predictions ⟨0, 0, 0, 0⟩
  have htp : (calculateConfusionMatrix predictions).truePositives =
      predictions.countP (fun p =>
        isPositivePrediction p.classification && isPositiveGroundTruth p.groundTruth) := by
    rw [calculateConfusionMatrix, h]
    simp
  have hfp : (calculateConfusionMatrix predictions).falsePositives =
      predictions.countP (fun p =>
        isPositivePrediction p.classification && !isPositiveGroundTruth p.groundTruth) := by
    rw [calculateConfusionMatrix, h]
    simp
  have htn : (calculateConfusionMatrix predictions).trueNegatives =
      predictions.countP (fun p =>
        !isPositivePrediction p.classification && !isPositiveGroundTruth p.groundTruth) := by
    rw [calculateConfusionMatrix, h]
    simp
  have hfn : (calculateConfusionMatrix predictions).falseNegatives =
      predictions.countP (fun p =>
        !isPositivePrediction p.classification && isPositiveGroundTruth p.groundTruth) := by
    rw [calculateConfusionMatrix, h]
    simp
  refine ⟨htp, hfp, htn, hfn, ?_, rfl⟩
  rw [htp, hfp, htn, hfn]
  exact countP_truth_table predictions

/-! Properties of the first-occurrence key deduplication. -/

theorem dedupKeys_not_mem_seen (l : List String) :
    ∀ seen, ∀ k ∈ dedupKeys l seen, k ∉ seen := by
  induction l with
  | nil => intro seen k hk; simp [dedupKeys] at hk
  | cons a as ih =>
    intro seen k hk
    by_cases ha : a ∈ seen
    · simp only [dedupKeys] at hk
      rw [if_pos ha] at hk
      exact ih seen k hk
    · simp only [dedupKeys] at hk
      rw [if_neg ha] at hk
      rcases List.mem_cons.mp hk with rfl | h2
      · exact ha
      · intro hks
        exact ih (a :: seen) k h2 (List.mem_cons_of_mem a hks)

theorem dedupKeys_nodup (l : List String) : ∀ seen, (dedupKeys l seen).Nodup := by
  induction l with
  | nil => intro seen; simp [dedupKeys]
  | cons a as ih =>
    intro seen
    by_cases ha : a ∈ seen
    · simp only [dedupKeys]
      rw [if_pos ha]
      exact ih seen
    · simp only [dedupKeys]
      rw [if_neg ha]
      refine List.nodup_cons.mpr ⟨?_, ih (a :: seen)⟩
      intro hmem
      exact dedupKeys_not_mem_seen as (a :: seen) a hmem (List.mem_cons_self a seen)

theorem mem_dedupKeys_of_mem (l : List String) :
    ∀ seen k, k ∈ l → k ∉ seen → k ∈ dedupKeys l seen := by
  induction l with
  | nil => intro seen k hk _; cases hk
  | cons a as ih =>
    intro seen k hk hks
    by_cases ha : a ∈ seen
    · simp only [dedupKeys]
      rw [if_pos ha]
      rcases List.mem_cons.mp hk with rfl | h2
      · exact absurd ha hks
      · exact ih seen k h2 hks
    · simp only [dedupKeys]
      rw [if_neg ha]
      rcases List.mem_cons.mp hk with rfl | h2
      · exact List.mem_cons_self k _
      · by_cases hka : k = a
        · subst hka; exact List.mem_cons_self k _
        · refine List.mem_cons_of_mem a (ih (a :: seen) k h2 ?_)
          intro hmem
          rcases List.mem_cons.mp hmem with h | h
          · exact hka h
          · exact hks h

theorem mem_of_mem_dedupKeys (l : List String) :
    ∀ seen k, k ∈ dedupKeys l seen → k ∈ l := by
  induction l with
  | nil => intro seen k hk; simp [dedupKeys] at hk
  | cons a as ih =>
    intro seen k hk
    by_cases ha : a ∈ seen
    · simp only [dedupKeys] at hk
      rw [if_pos ha] at hk
      exact List.mem_cons_of_mem a (ih seen k hk)
    · simp only [dedupKeys] at hk
      rw [if_neg ha] at hk
      rcases List.mem_cons.mp hk with rfl | h2
      · exact List.mem_cons_self k _
      · exact List.mem_cons_of_mem a (ih (a :: seen) k h2)

/-! Counting lemmas for the key partition. -/

theorem length_filter_split {α : Type} (p : α → Bool) (l : List α) :
    (l.filter p).length + (l.filter (fun a => !p a)).length = l.length := by
  induction l with
  | nil => rfl
  | cons a as ih =>
    cases h : p a <;> simp [List.filter_cons, h] <;> omega

theorem filter_of_filter_ne {α : Type} (f : α → String) (j k : String) (hjk : j ≠ k)
    (L : List α) :
    (L.filter (fun a => !(f a == k))).filter (fun a => f a == j) =
      L.filter (fun a => f a == j) := by
  induction L with
  | nil => rfl
  | cons a as ih =>
    by_cases hfa : f a = k
    · have h1 : (f a == k) = true := beq_iff_eq.mpr hfa
      have h2 : (f a == j) = false := by
        refine beq_eq_false_iff_ne.mpr ?_
        rw [hfa]
        exact fun h => hjk h.symm
      simp [List.filter_cons, h1, h2, ih]
    · have h1 : (f a == k) = false := beq_eq_false_iff_ne.mpr hfa
      by_cases hfj : f a = j
      · have h2 : (f a == j) = true := beq_iff_eq.mpr hfj
        simp [List.filter_cons, h1, h2, ih]
      · have h2 : (f a == j) = false := beq_eq_false_iff_ne.mpr hfj
        simp [List.filter_cons, h1, h2, ih]

/-- Over a duplicate-free key list covering every record's key, the per-key
filter lengths sum to the total record count: each record lands in exactly one
bucket. -/
theorem sum_filter_lengths {α : Type} (f : α → String) :
    ∀ (K : List String) (L : List α), K.Nodup → (∀ a ∈ L, f a ∈ K) →
      (K.map (fun k => (L.filter (fun a => f a == k)).length)).sum = L.length := by
  intro K
  induction K with
  | nil =>
    intro L _ hcov
    cases L with
    | nil => rfl
    | cons a as => exact absurd (hcov a (List.mem_cons_self a as)) (List.not_mem_nil _)
  | cons k ks ih =>
    intro L hnd hcov
    rw [List.map_cons, List.sum_cons]
    have hk_not : k ∉ ks := (List.nodup_cons.mp hnd).1
    have hnd2 : ks.Nodup := (List.nodup_cons.mp hnd).2
    have hmap : ks.map (fun j => (L.filter (fun a => f a == j)).length) =
        ks.map (fun j =>
          ((L.filter (fun a => !(f a == k))).filter (fun a => f a == j)).length) := by
      refine List.map_congr_left ?_
      intro j hj
      have hjk : j ≠ k := fun h => hk_not (h ▸ hj)
      rw [filter_of_filter_ne f j k hjk L]
    have hcov2 : ∀ a ∈ L.filter (fun a => !(f a == k)), f a ∈ ks := by
      intro a ha
      obtain ⟨haL, hak⟩ := List.mem_filter.mp ha
      have : (f a == k) = false := by
        cases h : (f a == k)
        · rfl
        · rw [h] at hak; cases hak
      rcases List.mem_cons.mp (hcov a haL) with h | h
      · exact absurd (beq_iff_eq.mpr h) (by rw [this]; exact Bool.false_ne_true)
      · exact h
    rw [hmap, ih (L.filter (fun a => !(f a == k))) hnd2 hcov2]
    exact length_filter_split (fun a => f a == k) L

/-! Projections of the per-group aggregator. -/

theorem calcFMPG_eq (l : List AnalysisWithPatient) :
    calculateFairnessMetricsPerGroup l =
      (dedupKeys ((l.filter hasGroundTruth).map groupKeyOf) []).map (fun k =>
        computeGroupMetrics k
          ((l.filter hasGroundTruth).filter (fun a => groupKeyOf a == k))) := rfl

theorem computeGroupMetrics_fitz (k : String) (items : List AnalysisWithPatient) :
    (computeGroupMetrics k items).fitzpatrickType = k := rfl

theorem computeGroupMetrics_total (k : String) (items : List AnalysisWithPatient) :
    (computeGroupMetrics k items).totalPredictions = items.length := rfl

/-- Claim C5: `calculateFairnessMetricsPerGroup` ignores records with an empty
or missing ground-truth label, buckets records with a missing group key under
"Unknown", forms duplicate-free groups whose sizes sum to the number of
qualifying records (each qualifying record is counted in exactly one group's
`totalPredictions`), and every output group contains at least one record. -/
theorem fairnessMetrics_grouping (l : List AnalysisWithPatient) :
    ((calculateFairnessMetricsPerGroup l).map (fun g => g.totalPredictions)).sum =
      (l.filter hasGroundTruth).length ∧
    ((calculateFairnessMetricsPerGroup l).map (fun g => g.fitzpatrickType)).Nodup ∧
    (∀ g ∈ calculateFairnessMetricsPerGroup l,
      0 < g.totalPredictions ∧
      g.totalPredictions =
        ((l.filter hasGroundTruth).filter
          (fun a => groupKeyOf a == g.fitzpatrickType)).length) ∧
    calculateFairnessMetricsPerGroup l =
      calculateFairnessMetricsPerGroup (l.filter hasGroundTruth) ∧
    (∀ a : AnalysisWithPatient, a.analysis.groundTruthLabel = none →
      hasGroundTruth a = false) ∧
    (∀ a : AnalysisWithPatient, a.analysis.groundTruthLabel = some "" →
      hasGroundTruth a = false) ∧
    (∀ a : AnalysisWithPatient, a.patient.fitzpatrickType = none →
      groupKeyOf a = "Unknown") := by
  have hcov : ∀ a ∈ l.filter hasGroundTruth,
      groupKeyOf a ∈ dedupKeys ((l.filter hasGroundTruth).map groupKeyOf) [] := by
    intro a ha
    exact mem_dedupKeys_of_mem ((l.filter hasGroundTruth).map groupKeyOf) [] (groupKeyOf a)
      (List.mem_map.mpr ⟨a, ha, rfl⟩) (List.not_mem_nil _)
  refine ⟨?_, ?_, ?_, ?_, ?_, ?_, ?_⟩
  · rw [calcFMPG_eq, List.map_map]
    have hcomp : ((fun g => g.totalPredictions) ∘ (fun k =>
        computeGroupMetrics k
          ((l.filter hasGroundTruth).filter (fun a => groupKeyOf a == k)))) =
        (fun k => ((l.filter hasGroundTruth).filter (fun a => groupKeyOf a == k)).length) := by
      funext k
      exact computeGroupMetrics_total k _
    rw [hcomp]
    exact sum_filter_lengths groupKeyOf
      (dedupKeys ((l.filter hasGroundTruth).map groupKeyOf) []) (l.filter hasGroundTruth)
      (dedupKeys_nodup _ []) hcov
  · rw [calcFMPG_eq, List.map_map]
    have hcomp : ((fun g => g.fitzpatrickType) ∘ (fun k =>
        computeGroupMetrics k
          ((l.filter hasGroundTruth).filter (fun a => groupKeyOf a == k)))) = id := by
      funext k
      exact computeGroupMetrics_fitz k _
    rw [hcomp, List.map_id]
    exact dedupKeys_nodup _ []
  · intro g hg
    rw [calcFMPG_eq] at hg
    obtain ⟨k, hk, rfl⟩ := List.mem_map.mp hg
    have hkM : k ∈ (l.filter hasGroundTruth).map groupKeyOf :=
      mem_of_mem_dedupKeys _ [] k hk
    obtain ⟨a, haL, hak⟩ := List.mem_map.mp hkM
    have hamem : a ∈ (l.filter hasGroundTruth).filter (fun x => groupKeyOf x == k) :=
      List.mem_filter.mpr ⟨haL, beq_iff_eq.mpr hak⟩
    constructor
    · rw [computeGroupMetrics_total]
      exact List.length_pos_of_mem hamem
    · rw [computeGroupMetrics_total, computeGroupMetrics_fitz]
  · rw [calcFMPG_eq, calcFMPG_eq]
    have hff : (l.filter hasGroundTruth).filter hasGroundTruth = l.filter hasGroundTruth := by
      rw [List.filter_filter]
      have : (fun a => hasGroundTruth a && hasGroundTruth a) = hasGroundTruth := by
        funext a
        exact Bool.and_self _
      rw [this]
    rw [hff]
  · intro a h
    simp [hasGroundTruth, h]
  · intro a h
    simp [hasGroundTruth, h]
  · intro a h
    simp [groupKeyOf, h]

/-- Concrete records exercising the grouping: one labelled record with a
missing Fitzpatrick type, one unlabelled record. -/
def sampleRecords : List AnalysisWithPatient :=
  [ ⟨⟨"Malignant", 80, some "Malignant"⟩, ⟨none⟩⟩,
    ⟨⟨"Benign", 60, none⟩, ⟨some "III"⟩⟩ ]

/-- Witness for claim C5 on `sampleRecords`: the single "Unknown" group is
non-empty. -/
theorem fairnessMetrics_grouping_witness :
    0 < (computeGroupMetrics "Unknown"
      ((sampleRecords.filter hasGroundTruth).filter
        (fun a => groupKeyOf a == "Unknown"))).totalPredictions := by
  have hmem : computeGroupMetrics "Unknown"
      ((sampleRecords.filter hasGroundTruth).filter
        (fun a => groupKeyOf a == "Unknown")) ∈
      calculateFairnessMetricsPerGroup sampleRecords := by
    have e : calculateFairnessMetricsPerGroup sampleRecords =
        [computeGroupMetrics "Unknown"
          ((sampleRecords.filter hasGroundTruth).filter
            (fun a => groupKeyOf a == "Unknown"))] := rfl
    rw [e]
    exact List.mem_singleton.mpr rfl
  have h := (fairnessMetrics_grouping sampleRecords).2.2.1 _ hmem
  have hfitz : (computeGroupMetrics "Unknown"
      ((sampleRecords.filter hasGroundTruth).filter
        (fun a => groupKeyOf a == "Unknown"))).fitzpatrickType = "Unknown" := rfl
  exact h.1

/-! Counting positives against the confusion matrix. -/

theorem countP_toPrediction_positive (items : List AnalysisWithPatient) :
    (items.map toPrediction).countP (fun p =>
        isPositivePrediction p.classification && isPositiveGroundTruth p.groundTruth) +
      (items.map toPrediction).countP (fun p =>
        isPositivePrediction p.classification && !isPositiveGroundTruth p.groundTruth) =
      (items.filter (fun item => isPositivePrediction item.analysis.classification)).length := by
  induction items with
  | nil => rfl
  | cons i is ih =>
    cases hp : isPositivePrediction i.analysis.classification <;>
      cases ha : isPositiveGroundTruth (i.analysis.groundTruthLabel.getD "") <;>
        simp [List.countP_cons, List.filter_cons, toPrediction, hp, ha,
          List.countP_map] at ih ⊢ <;>
          omega

theorem computeGroupMetrics_pp_eq (k : String) (items : List AnalysisWithPatient) :
    (computeGroupMetrics k items).positivePredictions =
      (computeGroupMetrics k items).truePositives +
        (computeGroupMetrics k items).falsePositives := by
  have hpp : (computeGroupMetrics k items).positivePredictions =
      (items.filter (fun item => isPositivePrediction item.analysis.classification)).length :=
    rfl
  have htp : (computeGroupMetrics k items).truePositives =
      (calculateConfusionMatrix (items.map toPrediction)).truePositives := rfl
  have hfp : (computeGroupMetrics k items).falsePositives =
      (calculateConfusionMatrix (items.map toPrediction)).falsePositives := rfl
  rw [hpp, htp, hfp, calculateConfusionMatrix, foldl_cmStep]
  have h := countP_toPrediction_positive items
  simp [List.countP_map] at h ⊢
  omega

theorem computeGroupMetrics_rate (k : String) (items : List AnalysisWithPatient) :
    (computeGroupMetrics k items).positiveRate =
      (((computeGroupMetrics k items).truePositives : ℚ) +
        ((computeGroupMetrics k items).falsePositives : ℚ)) /
        ((computeGroupMetrics k items).totalPredictions : ℚ) := by
  have hpp := computeGroupMetrics_pp_eq k items
  have hrate : (computeGroupMetrics k items).positiveRate =
      if items.length > 0 then
        (((computeGroupMetrics k items).positivePredictions : ℚ) / (items.length : ℚ))
      else 0 := rfl
  have htot : (computeGroupMetrics k items).totalPredictions = items.length :=
    computeGroupMetrics_total k items
  cases items with
  | nil =>
    have h0 : (computeGroupMetrics k ([] : List AnalysisWithPatient)).truePositives = 0 := rfl
    have h1 : (computeGroupMetrics k ([] : List AnalysisWithPatient)).falsePositives = 0 := rfl
    rw [hrate, h0, h1, htot]
    norm_num
  | cons i is =>
    rw [hrate, if_pos (by simp : (i :: is).length > 0), htot, hpp]
    push_cast
    ring

/-- Claim C10: every group record returned by `calculateFairnessMetricsPerGroup`
satisfies `positivePredictions = truePositives + falsePositives`, hence
`positiveRate = (truePositives + falsePositives) / totalPredictions`. -/
theorem positivePredictions_eq_tp_add_fp (l : List AnalysisWithPatient) :
    ∀ g ∈ calculateFairnessMetricsPerGroup l,
      g.positivePredictions = g.truePositives + g.falsePositives ∧
      g.positiveRate =
        ((g.truePositives : ℚ) + (g.falsePositives : ℚ)) / (g.totalPredictions : ℚ) := by
  intro g hg
  rw [calcFMPG_eq] at hg
  obtain ⟨k, hk, rfl⟩ := List.mem_map.mp hg
  exact ⟨computeGroupMetrics_pp_eq k _, computeGroupMetrics_rate k _⟩

/-- Witness for claim C10 on `sampleRecords`: the "Unknown" group satisfies the
positive-count identity. -/
theorem positivePredictions_eq_tp_add_fp_witness :
    (computeGroupMetrics "Unknown"
      ((sampleRecords.filter hasGroundTruth).filter
        (fun a => groupKeyOf a == "Unknown"))).positivePredictions =
      (computeGroupMetrics "Unknown"
        ((sampleRecords.filter hasGroundTruth).filter
          (fun a => groupKeyOf a == "Unknown"))).truePositives +
        (computeGroupMetrics "Unknown"
          ((sampleRecords.filter hasGroundTruth).filter
            (fun a => groupKeyOf a == "Unknown"))).falsePositives := by
  have hmem : computeGroupMetrics "Unknown"
      ((sampleRecords.filter hasGroundTruth).filter
        (fun a => groupKeyOf a == "Unknown")) ∈
      calculateFairnessMetricsPerGroup sampleRecords := by
    have e : calculateFairnessMetricsPerGroup sampleRecords =
        [computeGroupMetrics "Unknown"
          ((sampleRecords.filter hasGroundTruth).filter
            (fun a => groupKeyOf a == "Unknown"))] := rfl
    rw [e]
    exact List.mem_singleton.mpr rfl
  exact (positivePredictions_eq_tp_add_fp sampleRecords _ hmem).1

/-! The Brier-score accumulation loop as a mapped sum. -/

theorem foldl_add_eq_sum {α : Type} (f : α → ℚ) (l : List α) (a : ℚ) :
    l.foldl (fun acc p => acc + f p) a = a + (l.map f).sum := by
  induction l generalizing a with
  | nil => simp
  | cons x xs ih =>
    rw [List.foldl_cons, ih (a + f x), List.map_cons, List.sum_cons]
    ring

/-- Claim C6: on a non-empty list, `calculateBrierScore` is the mean over the
records of `(confidence/100 − outcome)²` with outcome 1 exactly when the
classification equals the ground truth; on the empty list it is 0. -/
theorem brierScore_mean_formula (p : Prediction) (ps : List Prediction) :
    calculateBrierScore (p :: ps) =
      (((p :: ps).map (fun q =>
        (q.confidence / 100 -
          (if q.classification = q.groundTruth then (1 : ℚ) else 0)) ^ 2)).sum) /
        (((p :: ps).length : ℚ)) ∧
    calculateBrierScore [] = 0 := by
  constructor
  · rw [calculateBrierScore, if_neg (by simp), foldl_add_eq_sum brierTerm (p :: ps) 0,
      zero_add]
    rfl
  · rfl

/-! Bounding the Brier score. -/

theorem brierTerm_bounds (q : Prediction) (h0 : 0 ≤ q.confidence)
    (h1 : q.confidence ≤ 100) : 0 ≤ brierTerm q ∧ brierTerm q ≤ 1 := by
  constructor
  · exact sq_nonneg _
  · rw [brierTerm]
    by_cases hc : q.classification = q.groundTruth
    · rw [if_pos hc]
      nlinarith [mul_nonneg h0 (by linarith : (0 : ℚ) ≤ 100 - q.confidence)]
    · rw [if_neg hc]
      nlinarith [mul_nonneg h0 h0, mul_le_mul h1 h1 h0 (by norm_num : (0 : ℚ) ≤ 100)]

theorem sum_brierTerm_bounds :
    ∀ l : List Prediction, (∀ q ∈ l, 0 ≤ q.confidence ∧ q.confidence ≤ 100) →
      0 ≤ (l.map brierTerm).sum ∧ (l.map brierTerm).sum ≤ (l.length : ℚ) := by
  intro l
  induction l with
  | nil => intro _; simp
  | cons q qs ih =>
    intro h
    obtain ⟨hq0, hq1⟩ := h q (List.mem_cons_self q qs)
    obtain ⟨ih0, ih1⟩ := ih (fun x hx => h x (List.mem_cons_of_mem q hx))
    obtain ⟨hb0, hb1⟩ := brierTerm_bounds q hq0 hq1
    rw [List.map_cons, List.sum_cons, List.length_cons]
    constructor
    · exact add_nonneg hb0 ih0
    · push_cast
      linarith

/-- Claim C9: whenever every record's confidence lies in [0, 100], the Brier
score lies in [0, 1]. -/
theorem brierScore_bounds (predictions : List Prediction)
    (h : ∀ q ∈ predictions, 0 ≤ q.confidence ∧ q.confidence ≤ 100) :
    0 ≤ calculateBrierScore predictions ∧ calculateBrierScore predictions ≤ 1 := by
  cases predictions with
  | nil => constructor <;> norm_num [calculateBrierScore]
  | cons p ps =>
    have hsum := sum_brierTerm_bounds (p :: ps) h
    have hform : calculateBrierScore (p :: ps) =
        ((p :: ps).map brierTerm).sum / (((p :: ps).length : ℚ)) := by
      rw [calculateBrierScore, if_neg (by simp), foldl_add_eq_sum brierTerm (p :: ps) 0,
        zero_add]
    have hlen : (0 : ℚ) < (((p :: ps).length : ℚ)) := by
      rw [List.length_cons]
      push_cast
      positivity
    rw [hform]
    constructor
    · exact div_nonneg hsum.1 (le_of_lt hlen)
    · rw [div_le_one hlen]
      exact hsum.2

/-- Concrete prediction list exercising the Brier bound. -/
def sampleBrier : List Prediction := [⟨"Malignant", "Malignant", 80⟩]

/-- Witness for claim C9 on `sampleBrier`. -/
theorem brierScore_bounds_witness :
    0 ≤ calculateBrierScore sampleBrier ∧ calculateBrierScore sampleBrier ≤ 1 :=
  brierScore_bounds sampleBrier (by
    intro q hq
    rcases List.mem_singleton.mp hq with rfl
    constructor <;> norm_num)

/-- Claim C8: every metric with a zero denominator returns exactly 0:
`positiveRate` and `accuracyAtConfidence` when the group is empty,
`truePositiveRate` when tp+fn = 0, `falsePositiveRate` when fp+tn = 0,
`precision` when tp+fp = 0, `f1Score` when precision+recall = 0, and the
Brier score on the empty record list. -/
theorem zero_denominator_policy (k : String) (items : List AnalysisWithPatient) :
    (items.length = 0 → (computeGroupMetrics k items).positiveRate = 0) ∧
    ((computeGroupMetrics k items).truePositives +
        (computeGroupMetrics k items).falseNegatives = 0 →
      (computeGroupMetrics k items).truePositiveRate = 0) ∧
    ((computeGroupMetrics k items).falsePositives +
        (computeGroupMetrics k items).trueNegatives = 0 →
      (computeGroupMetrics k items).falsePositiveRate = 0) ∧
    ((computeGroupMetrics k items).truePositives +
        (computeGroupMetrics k items).falsePositives = 0 →
      (computeGroupMetrics k items).precision = 0) ∧
    ((computeGroupMetrics k items).precision + (computeGroupMetrics k items).«recall» = 0 →
      (computeGroupMetrics k items).f1Score = 0) ∧
    (items.length = 0 → (computeGroupMetrics k items).accuracyAtConfidence = 0) ∧
    calculateBrierScore [] = 0 := by
  have hPR : (computeGroupMetrics k items).positiveRate =
      if items.length > 0 then
        (((computeGroupMetrics k items).positivePredictions : ℚ) / (items.length : ℚ))
      else 0 := rfl
  have hTPR : (computeGroupMetrics k items).truePositiveRate =
      if (computeGroupMetrics k items).truePositives +
          (computeGroupMetrics k items).falseNegatives > 0 then
        (((computeGroupMetrics k items).truePositives : ℚ) /
          (((computeGroupMetrics k items).truePositives : ℚ) +
            ((computeGroupMetrics k items).falseNegatives : ℚ)))
      else 0 := rfl
  have hFPR : (computeGroupMetrics k items).falsePositiveRate =
      if (computeGroupMetrics k items).falsePositives +
          (computeGroupMetrics k items).trueNegatives > 0 then
        (((computeGroupMetrics k items).falsePositives : ℚ) /
          (((computeGroupMetrics k items).falsePositives : ℚ) +
            ((computeGroupMetrics k items).trueNegatives : ℚ)))
      else 0 := rfl
  have hPrec : (computeGroupMetrics k items).precision =
      if (computeGroupMetrics k items).truePositives +
          (computeGroupMetrics k items).falsePositives > 0 then
        (((computeGroupMetrics k items).truePositives : ℚ) /
          (((computeGroupMetrics k items).truePositives : ℚ) +
            ((computeGroupMetrics k items).falsePositives : ℚ)))
      else 0 := rfl
  have hF1 : (computeGroupMetrics k items).f1Score =
      if (computeGroupMetrics k items).precision +
          (computeGroupMetrics k items).«recall» > 0 then
        (2 * (computeGroupMetrics k items).precision *
            (computeGroupMetrics k items).«recall») /
          ((computeGroupMetrics k items).precision +
            (computeGroupMetrics k items).«recall»)
      else 0 := rfl
  have hACC : (computeGroupMetrics k items).accuracyAtConfidence =
      if items.length > 0 then
        (((items.filter (fun item =>
          item.analysis.groundTruthLabel == some item.analysis.classification)).length : ℚ) /
          (items.length : ℚ))
      else 0 := rfl
  refine ⟨?_, ?_, ?_, ?_, ?_, ?_, rfl⟩
  · intro h
    rw [hPR, if_neg (by omega)]
  · intro h
    rw [hTPR, if_neg (by omega)]
  · intro h
    rw [hFPR, if_neg (by omega)]
  · intro h
    rw [hPrec, if_neg (by omega)]
  · intro h
    rw [hF1, if_neg (by rw [h]; exact lt_irrefl 0)]
  · intro h
    rw [hACC, if_neg (by omega)]

/-- Witness for claim C8 on the empty group: every guarded metric is 0. -/
theorem zero_denominator_policy_witness :
    (computeGroupMetrics "I" ([] : List AnalysisWithPatient)).positiveRate = 0 ∧
    (computeGroupMetrics "I" ([] : List AnalysisWithPatient)).truePositiveRate = 0 ∧
    (computeGroupMetrics "I" ([] : List AnalysisWithPatient)).falsePositiveRate = 0 ∧
    (computeGroupMetrics "I" ([] : List AnalysisWithPatient)).precision = 0 ∧
    (computeGroupMetrics "I" ([] : List AnalysisWithPatient)).f1Score = 0 ∧
    (computeGroupMetrics "I" ([] : List AnalysisWithPatient)).accuracyAtConfidence = 0 ∧
    calculateBrierScore [] = 0 := by
  obtain ⟨h1, h2, h3, h4, h5, h6, h7⟩ :=
    zero_denominator_policy "I" ([] : List AnalysisWithPatient)
  have hp : (computeGroupMetrics "I" ([] : List AnalysisWithPatient)).precision = 0 := rfl
  have hr : (computeGroupMetrics "I" ([] : List AnalysisWithPatient)).«recall» = 0 := rfl
  exact ⟨h1 rfl, h2 rfl, h3 rfl, h4 rfl, h5 (by rw [hp, hr]; norm_num), h6 rfl, h7⟩

end SAGAlyze
